import Mathlib

/-!
Verification of the deployment reconciliation and health-observation engine
of the `aws-elasticbeanstalk-deploy` action.

The TypeScript source is shallowly embedded:
* promises/exceptions become `Except String` results or explicit outcome types;
* the AWS SDK responses consumed by each function become explicit inputs
  (`Option` encodes a thrown query / a missing field, mirroring the
  `try/catch` blocks and optional SDK fields);
* wall-clock time in the polling loops advances only at the `setTimeout`
  sleeps, so the elapsed time after `i` polls is `i * pollInterval`
  milliseconds; each loop carries a structural fuel argument that is set to
  `maxWait` at the entry point, which never runs out before the faithful
  loop condition `i * pollInterval < maxWait` turns false (the fuel-0 branch
  returns the same timeout result as the condition-false branch, so the two
  exits coincide).

Sources embedded: `src/aws-operations.ts` (retryWithBackoff,
environmentExists, uploadToS3, createS3Bucket, createEnvironment) and the
two monitoring variants present in the snapshot: `src/monitoring.ts`
(namespace `Monitoring`) and the mark-deduplicating variant (namespace
`Part002`).
-/

/-- JavaScript string interpolation of a possibly-`undefined` value:
`${x}` prints `undefined` when `x` is `undefined`. -/
def jsShow (s : Option String) : String :=
  match s with
  | some v => v
  | none => "undefined"

/-- JavaScript `s || d` on an optional string: the default is used when the
string is missing or empty (both are falsy). -/
def jsStrOr (s : Option String) (d : String) : String :=
  match s with
  | some v => if v = "" then d else v
  | none => d

/-- Outcome of one `retryWithBackoff` call (`src/aws-operations.ts`
lines 53-78): the settled result, how many times the wrapped operation was
invoked, and the sequence of backoff sleeps (in seconds; the code passes
`delay * 1000` milliseconds to `setTimeout`). -/
structure RetryRun (α : Type) where
  result : Except String α
  calls : Nat
  delays : List Nat

/-- The `for (let attempt = 1; attempt <= maxRetries; attempt++)` loop of
`retryWithBackoff`.  The wrapped operation is a function of the (1-indexed)
attempt number.  `fuel` is structural padding fixed to `maxRetries` at the
entry point: the loop body runs only while `attempt ≤ maxRetries`, and since
`attempt` starts at 1, the fuel-0 case is reached exactly when
`attempt = maxRetries + 1`, where the loop condition is false as well; both
exits build the exhaustion error
`` `${operationName} failed after ${maxRetries} attempts: ${lastError?.message}` ``. -/
def retryLoop {α : Type} (fn : Nat → Except String α) (operationName : String)
    (maxRetries retryDelay : Nat) : Nat → Nat → Option String → RetryRun α
  | 0, _, lastError =>
    { result := .error (operationName ++ " failed after " ++ toString maxRetries ++
        " attempts: " ++ jsShow lastError)
      calls := 0
      delays := [] }
  | fuel + 1, attempt, lastError =>
    if attempt ≤ maxRetries then
      match fn attempt with
      | .ok v => { result := .ok v, calls := 1, delays := [] }
      | .error e =>
        let rest := retryLoop fn operationName maxRetries retryDelay fuel (attempt + 1) (some e)
        if attempt < maxRetries then
          { result := rest.result
            calls := rest.calls + 1
            delays := (retryDelay * 2 ^ (attempt - 1)) :: rest.delays }
        else
          { result := rest.result, calls := rest.calls + 1, delays := rest.delays }
    else
      { result := .error (operationName ++ " failed after " ++ toString maxRetries ++
          " attempts: " ++ jsShow lastError)
        calls := 0
        delays := [] }

/-- `retryWithBackoff(fn, maxRetries, retryDelay, operationName)`
(`src/aws-operations.ts` lines 53-78). -/
def retryWithBackoff {α : Type} (fn : Nat → Except String α) (maxRetries retryDelay : Nat)
    (operationName : String) : RetryRun α :=
  retryLoop fn operationName maxRetries retryDelay maxRetries 1 none

/-- One Elastic Beanstalk environment event as consumed by the monitors:
the SDK marks `EventDate`, `Severity` and `Message` all optional.
Timestamps are modelled as naturals (`Date` compares by epoch value). -/
structure EBEvent where
  eventDate : Option Nat
  severity : Option String
  message : Option String
deriving DecidableEq, Repr

/-- `event.Severity || 'INFO'`. -/
def sevOf (e : EBEvent) : String := jsStrOr e.severity "INFO"

/-- `event.Message || 'No message'`. -/
def msgOf (e : EBEvent) : String := jsStrOr e.message "No message"

/-- The `severity === 'ERROR' || severity === 'FATAL'` test shared by both
monitoring variants. -/
def isFatalOrError (e : EBEvent) : Bool :=
  sevOf e == "ERROR" || sevOf e == "FATAL"

namespace Monitoring

/-- Result of `describeRecentEvents` in `src/monitoring.ts` (lines 13-66):
no timestamp tracking in this variant. -/
structure EventCheck where
  hasError : Bool
  errorMessage : Option String
deriving DecidableEq, Repr

/-- `describeRecentEvents` of `src/monitoring.ts` (lines 13-66).  `fetch` is
the `DescribeEvents` response: `none` models the call throwing (the
`catch` returns `{ hasError: false }`), `some events` the fetched list.
The `if (response.Events && response.Events.length > 0)` guard collapses
into the filter: with no events there is no fatal event either. -/
def describeRecentEvents (fetch : Option (List EBEvent)) : EventCheck :=
  match fetch with
  | none => { hasError := false, errorMessage := none }
  | some events =>
    match (events.filter isFatalOrError).head? with
    | some e =>
      let m := msgOf e
      { hasError := true
        errorMessage := some (if m = "" then "Unknown error occurred" else m) }
    | none => { hasError := false, errorMessage := none }

end Monitoring

namespace Part002

/-- Result of the mark-deduplicating `describeRecentEvents` (the variant
carrying `lastSeenEventDate`): `reported` is the list of events surfaced to
the log this call (the `newEvents.forEach` body). -/
structure EventCheck where
  hasError : Bool
  errorMessage : Option String
  lastEventDate : Option Nat
  reported : List EBEvent
deriving DecidableEq, Repr

/-- The `forEach` accumulation of `mostRecentDate`: starting from
`undefined`, replace whenever a dated event is strictly newer. -/
def mostRecentStep (acc : Option Nat) (e : EBEvent) : Option Nat :=
  match e.eventDate with
  | some d =>
    match acc with
    | none => some d
    | some m => if m < d then some d else acc
  | none => acc

/-- The `lastSeenEventDate ? events.filter(...) : events` selection of new
events: with a mark, keep only events having a date strictly greater than
it; without a mark every fetched event is new. -/
def newEventsOf (events : List EBEvent) (lastSeen : Option Nat) : List EBEvent :=
  match lastSeen with
  | some m =>
    events.filter fun e =>
      match e.eventDate with
      | some d => decide (m < d)
      | none => false
  | none => events

/-- The mark-deduplicating `describeRecentEvents(clients, appName, envName,
lastSeenEventDate)`.  `fetch = none` models the `DescribeEvents` call
throwing, whose `catch` returns `hasError: false` with the mark unchanged.
When there are new events it logs them all (`reported`), collects the
fatal/error ones, and returns the most recent date seen; with no new
events the prior mark is passed through. -/
def describeRecentEvents (fetch : Option (List EBEvent)) (lastSeen : Option Nat) :
    EventCheck :=
  match fetch with
  | none => { hasError := false, errorMessage := none, lastEventDate := lastSeen, reported := [] }
  | some events =>
    let newEvents := newEventsOf events lastSeen
    if newEvents.length > 0 then
      let fatalOrErrorEvents := newEvents.filter isFatalOrError
      let mostRecentDate := newEvents.foldl mostRecentStep none
      match fatalOrErrorEvents.head? with
      | some e0 =>
        let m0 := msgOf e0
        { hasError := true
          errorMessage := some (if m0 = "" then "Unknown error occurred" else m0)
          lastEventDate := mostRecentDate
          reported := newEvents }
      | none =>
        { hasError := false, errorMessage := none, lastEventDate := mostRecentDate
          reported := newEvents }
    else
      { hasError := false, errorMessage := none, lastEventDate := lastSeen, reported := [] }

end Part002

/-- Spec-side description of the returned high-water mark (§4.4 of the
spec): the maximum timestamp among the newly considered events, or the
prior mark unchanged when there are none. -/
def specHighWater (reported : List EBEvent) (mark : Option Nat) : Option Nat :=
  match reported.filterMap EBEvent.eventDate with
  | [] => mark
  | d :: ds => some (ds.foldl max d)

/-- The `deploymentActionType?: 'create' | 'update'` argument of the
Deployment Watcher. -/
inductive DeploymentActionType
  | create
  | update
deriving DecidableEq, Repr

/-- `deploymentActionType === 'create' ? 20000 : 10000` (milliseconds). -/
def pollIntervalFor (t : Option DeploymentActionType) : Nat :=
  match t with
  | some .create => 20000
  | _ => 10000

/-- What one polling cycle of the Deployment Watcher observes: the
`DescribeEnvironments` response (`none` when `response.Environments` is
missing or empty, `some s` the first record's optional `Status`), and the
`DescribeEvents` response this cycle would see. -/
structure DeployPoll where
  env : Option (Option String)
  events : Option (List EBEvent)

namespace Monitoring

/-- How the `while` loop of `waitForDeploymentCompletion` exits:
deployment completed, a fatal/error event was thrown, or time ran out at
poll index `exitIndex` (the code then runs one more diagnostic
`describeRecentEvents` before throwing). -/
inductive DeployLoopExit
  | completed
  | failedEvent (message : String)
  | timedOut (exitIndex : Nat)
deriving DecidableEq, Repr

/-- The polling `while` loop of `waitForDeploymentCompletion`
(`src/monitoring.ts` lines 87-127).  `obs i` is what the i-th cycle
observes; the loop condition `Date.now() - startTime < maxWait` is
`i * pollInterval < maxWait` in the sleep-driven time model.  `fuel` is
structural padding fixed to `maxWait` at the entry point; since
`pollInterval ≥ 1` the condition turns false no later than the fuel runs
out, and the fuel-0 branch returns the same timeout exit. -/
def deployLoop (obs : Nat → DeployPoll) (pollInterval maxWait : Nat) :
    Nat → Nat → DeployLoopExit
  | i, 0 => .timedOut i
  | i, fuel + 1 =>
    if i * pollInterval < maxWait then
      match (obs i).env with
      | some status =>
        if status = some "Ready" then
          .completed
        else
          let eventCheck := describeRecentEvents (obs i).events
          if eventCheck.hasError then
            .failedEvent ("Environment deployment failed - fatal or error event detected: " ++
              jsShow eventCheck.errorMessage)
          else
            deployLoop obs pollInterval maxWait (i + 1) fuel
      | none => deployLoop obs pollInterval maxWait (i + 1) fuel
    else
      .timedOut i

/-- Final outcome of `waitForDeploymentCompletion`: on timeout it carries
the diagnostic `describeRecentEvents` result fetched after the loop and
the thrown message. -/
inductive DeployOutcome
  | completed
  | failedEvent (message : String)
  | timedOut (diagnostics : EventCheck) (message : String)
deriving DecidableEq, Repr

/-- `waitForDeploymentCompletion(clients, applicationName, environmentName,
timeout, deploymentActionType)` of `src/monitoring.ts` (lines 71-132). -/
def waitForDeploymentCompletion (obs : Nat → DeployPoll) (timeout : Nat)
    (deploymentActionType : Option DeploymentActionType) : DeployOutcome :=
  match deployLoop obs (pollIntervalFor deploymentActionType) (timeout * 1000) 0
      (timeout * 1000) with
  | .completed => .completed
  | .failedEvent m => .failedEvent m
  | .timedOut i =>
    .timedOut (describeRecentEvents (obs i).events)
      ("Deployment timed out after " ++ toString timeout ++ "s")

end Monitoring

/-- The health/status pair of the first environment record seen by the
Health Watcher (`env.Health`, `env.Status`; both optional SDK fields). -/
structure EnvHS where
  health : Option String
  status : Option String
deriving DecidableEq, Repr

/-- What one polling cycle of the Health Watcher observes. -/
structure HealthPoll where
  env : Option EnvHS
  events : Option (List EBEvent)

namespace Monitoring

/-- How the `while` loop of `waitForHealthRecovery` exits.  `redFailure i`
and `timedOut i` record the poll index so the diagnostic
`describeRecentEvents` performed before the throw can be reproduced. -/
inductive HealthLoopExit
  | healthy
  | failedEvent (message : String)
  | redFailure (exitIndex : Nat)
  | timedOut (exitIndex : Nat)
deriving DecidableEq, Repr

/-- The polling `while` loop of `waitForHealthRecovery`
(`src/monitoring.ts` lines 150-201), polling every 15000 ms.  The source
runs the Grey-phase event check first (possibly throwing), then the
Green/Yellow success test, then the Red-and-Ready failure test; since
`Grey`/missing health is disjoint from those constants, folding the
Grey-phase throw into the first branch is behaviour-preserving. -/
def healthLoop (obs : Nat → HealthPoll) (maxWait : Nat) : Nat → Nat → HealthLoopExit
  | i, 0 => .timedOut i
  | i, fuel + 1 =>
    if i * 15000 < maxWait then
      match (obs i).env with
      | some env =>
        if (env.health = some "Grey" ∨ env.health = none) ∧
            (describeRecentEvents (obs i).events).hasError then
          .failedEvent ("Environment deployment failed - fatal or error event detected: " ++
            jsShow (describeRecentEvents (obs i).events).errorMessage)
        else if env.health = some "Green" ∨ env.health = some "Yellow" then
          .healthy
        else if env.health = some "Red" ∧ env.status = some "Ready" then
          .redFailure i
        else
          healthLoop obs maxWait (i + 1) fuel
      | none => healthLoop obs maxWait (i + 1) fuel
    else
      .timedOut i

/-- Final outcome of `waitForHealthRecovery`: the Red failure and the
timeout both carry the diagnostic event fetch performed before the throw. -/
inductive HealthOutcome
  | healthy
  | failedEvent (message : String)
  | redFailure (diagnostics : EventCheck) (message : String)
  | timedOut (diagnostics : EventCheck) (message : String)
deriving DecidableEq, Repr

/-- `waitForHealthRecovery(clients, applicationName, environmentName,
timeout)` of `src/monitoring.ts` (lines 137-206). -/
def waitForHealthRecovery (obs : Nat → HealthPoll) (timeout : Nat) : HealthOutcome :=
  match healthLoop obs (timeout * 1000) 0 (timeout * 1000) with
  | .healthy => .healthy
  | .failedEvent m => .failedEvent m
  | .redFailure i =>
    .redFailure (describeRecentEvents (obs i).events)
      "Environment deployment failed - health is Red"
  | .timedOut i =>
    .timedOut (describeRecentEvents (obs i).events)
      ("Environment health check timed out after " ++ toString timeout ++ "s")

/-- A Deployment Watcher cycle that neither succeeds nor fails: no
environment record, or a non-Ready status with no fatal/error event. -/
def cycleContinues (obs : Nat → DeployPoll) (j : Nat) : Prop :=
  (obs j).env = none ∨
    ∃ s, (obs j).env = some s ∧ s ≠ some "Ready" ∧
      (describeRecentEvents (obs j).events).hasError = false

/-- A Health Watcher cycle that neither succeeds nor fails: no environment
record, or health neither Green/Yellow nor Red-with-Ready, with no
fatal/error event surfacing during a Grey phase. -/
def healthCycleContinues (obs : Nat → HealthPoll) (j : Nat) : Prop :=
  (obs j).env = none ∨
    ∃ env, (obs j).env = some env ∧
      ¬((env.health = some "Grey" ∨ env.health = none) ∧
          (describeRecentEvents (obs j).events).hasError) ∧
      ¬(env.health = some "Green" ∨ env.health = some "Yellow") ∧
      ¬(env.health = some "Red" ∧ env.status = some "Ready")

end Monitoring

namespace Chained

/-- Result of one run of the mark-chaining Deployment Watcher: the loop
exit, the final `lastSeenEventDate` (the value the function resolves with
on completion), and every event surfaced to the log during the run. -/
structure DeployRun where
  outcome : Monitoring.DeployLoopExit
  finalMark : Option Nat
  reported : List EBEvent

/-- Modelled from the spec: the polling loop of the mark-returning
`waitForDeploymentCompletion` declared in the snapshot's
`monitoring.d.ts` fragment (`Promise<Date | undefined>`, "Returns the last
seen event date to avoid duplicate events in subsequent monitoring") whose
implementation is missing from `src`; spec §4.5.  The body is the
mark-threading loop of the `Part002` variant, additionally returning the
running `lastSeenEventDate` on completion. -/
def deployLoop (obs : Nat → DeployPoll) (pollInterval maxWait : Nat) :
    Nat → Nat → Option Nat → List EBEvent → DeployRun
  | i, 0, mark, acc =>
    let ec := Part002.describeRecentEvents (obs i).events mark
    { outcome := .timedOut i, finalMark := mark, reported := acc ++ ec.reported }
  | i, fuel + 1, mark, acc =>
    if i * pollInterval < maxWait then
      match (obs i).env with
      | some status =>
        if status = some "Ready" then
          { outcome := .completed, finalMark := mark, reported := acc }
        else
          let ec := Part002.describeRecentEvents (obs i).events mark
          let mark2 := if ec.lastEventDate.isSome then ec.lastEventDate else mark
          if ec.hasError then
            { outcome := .failedEvent
                ("Environment deployment failed - fatal or error event detected: " ++
                  jsShow ec.errorMessage)
              finalMark := mark2
              reported := acc ++ ec.reported }
          else
            deployLoop obs pollInterval maxWait (i + 1) fuel mark2 (acc ++ ec.reported)
      | none => deployLoop obs pollInterval maxWait (i + 1) fuel mark acc
    else
      let ec := Part002.describeRecentEvents (obs i).events mark
      { outcome := .timedOut i, finalMark := mark, reported := acc ++ ec.reported }

/-- Modelled from the spec: the mark-returning `waitForDeploymentCompletion`
(spec §4.5, "Returns (to the caller, for chaining into health-watching) the
final high-water mark reached"). -/
def waitForDeploymentCompletion (obs : Nat → DeployPoll) (timeout : Nat)
    (deploymentActionType : Option DeploymentActionType) : DeployRun :=
  deployLoop obs (pollIntervalFor deploymentActionType) (timeout * 1000) 0 (timeout * 1000)
    none []

/-- Result of one run of the mark-chaining Health Watcher. -/
structure HealthRun where
  outcome : Monitoring.HealthLoopExit
  finalMark : Option Nat
  reported : List EBEvent

/-- Modelled from the spec: the polling loop of the mark-accepting
`waitForHealthRecovery` declared in the snapshot's `monitoring.d.ts`
fragment (parameter `lastEventDateFromDeployment?: Date`) whose
implementation is missing from `src`; spec §4.6.  The body is the
mark-threading Grey-phase loop of the `Part002` variant, seeded with the
mark handed over by the Deployment Watcher; the Red-and-Ready branch and
the timeout exit run the same diagnostic fetch the `Part002` variant does. -/
def healthLoop (obs : Nat → HealthPoll) (maxWait : Nat) :
    Nat → Nat → Option Nat → List EBEvent → HealthRun
  | i, 0, mark, acc =>
    let ec := Part002.describeRecentEvents (obs i).events mark
    { outcome := .timedOut i, finalMark := mark, reported := acc ++ ec.reported }
  | i, fuel + 1, mark, acc =>
    if i * 15000 < maxWait then
      match (obs i).env with
      | some env =>
        if env.health = some "Grey" ∨ env.health = none then
          let ec := Part002.describeRecentEvents (obs i).events mark
          let mark2 := if ec.lastEventDate.isSome then ec.lastEventDate else mark
          if ec.hasError then
            { outcome := .failedEvent
                ("Environment deployment failed - fatal or error event detected: " ++
                  jsShow ec.errorMessage)
              finalMark := mark2
              reported := acc ++ ec.reported }
          else
            healthLoop obs maxWait (i + 1) fuel mark2 (acc ++ ec.reported)
        else if env.health = some "Green" ∨ env.health = some "Yellow" then
          { outcome := .healthy, finalMark := mark, reported := acc }
        else if env.health = some "Red" ∧ env.status = some "Ready" then
          let ec := Part002.describeRecentEvents (obs i).events mark
          { outcome := .redFailure i, finalMark := mark, reported := acc ++ ec.reported }
        else
          healthLoop obs maxWait (i + 1) fuel mark acc
      | none => healthLoop obs maxWait (i + 1) fuel mark acc
    else
      let ec := Part002.describeRecentEvents (obs i).events mark
      { outcome := .timedOut i, finalMark := mark, reported := acc ++ ec.reported }

/-- Modelled from the spec: the mark-accepting `waitForHealthRecovery`
(spec §4.6, "carrying forward the high-water mark from the Deployment
Watcher, then internally"). -/
def waitForHealthRecovery (obs : Nat → HealthPoll) (timeout : Nat)
    (lastEventDateFromDeployment : Option Nat) : HealthRun :=
  healthLoop obs (timeout * 1000) 0 (timeout * 1000) lastEventDateFromDeployment []

end Chained

/-- Result record of `environmentExists` (`src/aws-operations.ts` lines
164-193).  The source field is named `exists`, a keyword in Lean. -/
structure EnvExistsResult where
  exists_ : Bool
  status : Option String
  health : Option String
deriving DecidableEq, Repr

/-- One record of a `DescribeEnvironments` response. -/
structure EnvRecord where
  status : Option String
  health : Option String
deriving DecidableEq, Repr

/-- `environmentExists(clients, applicationName, environmentName)`
(`src/aws-operations.ts` lines 164-193).  `resp = none` models the query
throwing (the `catch` returns `{ exists: false }`); with records present,
`exists` is `status !== 'Terminated'` and the first record's status and
health are passed through. -/
def environmentExists (resp : Option (List EnvRecord)) : EnvExistsResult :=
  match resp with
  | none => { exists_ := false, status := none, health := none }
  | some envs =>
    match envs with
    | [] => { exists_ := false, status := none, health := none }
    | env :: _ =>
      { exists_ := env.status != some "Terminated"
        status := env.status
        health := env.health }

/-- Splitting a character list at every occurrence of a separator
(structural-recursion counterpart of `String.splitOn` for one-character
separators, used to model `path.extname`). -/
def splitOnChar (c : Char) : List Char → List (List Char)
  | [] => [[]]
  | x :: xs =>
    let rest := splitOnChar c xs
    if x = c then [] :: rest
    else
      match rest with
      | r :: rs => (x :: r) :: rs
      | [] => [[x]]

/-- Node's `path.extname`: the substring of the last path segment from its
last dot, empty for dotless names and for a single leading dot
(`.bashrc`). -/
def extname (p : String) : String :=
  let base := (splitOnChar '/' p.data).getLastD []
  let parts := splitOnChar '.' base
  if parts.length ≤ 1 then ""
  else if parts.length = 2 ∧ parts.headD [] = [] then ""
  else String.mk ('.' :: parts.getLastD [])

/-- The S3 requests a run of the version-upload path issues, in order. -/
inductive S3Action
  | headBucket (bucket : String)
  | createBucket (bucket : String) (locationConstraint : Option String)
  | putObject (bucket : String) (key : String)
deriving DecidableEq, Repr

/-- `createS3Bucket(clients, region, bucket, maxRetries, retryDelay)`
(`src/aws-operations.ts` lines 246-280) as the S3 requests it issues:
a `HeadBucket` probe, and, only when the probe fails (`bucketExists =
false`), a `CreateBucket` whose `CreateBucketConfiguration.LocationConstraint`
is set to the region unless the region is `us-east-1`.  The `CreateBucket`
call is wrapped in `retryWithBackoff`; the request parameters are the same
on every attempt. -/
def createS3Bucket (region bucket : String) (bucketExists : Bool) : List S3Action :=
  .headBucket bucket ::
    (if bucketExists then []
     else [.createBucket bucket (if region = "us-east-1" then none else some region)])

/-- `uploadToS3(clients, region, accountId, applicationName, versionLabel,
packagePath, maxRetries, retryDelay, createBucketIfNotExists)`
(`src/aws-operations.ts` lines 198-241) as the S3 requests it issues plus
the returned `{ bucket, key }`.  When `createBucketIfNotExists` is false the
function neither probes nor creates the bucket: it proceeds straight to the
`PutObject` upload (wrapped in `retryWithBackoff`).  There is no bucket
existence check and no "bucket missing" error on that path. -/
def uploadToS3 (region accountId applicationName versionLabel packagePath : String)
    (createBucketIfNotExists : Bool) (bucketExists : Bool) :
    List S3Action × String × String :=
  let bucket := "elasticbeanstalk-" ++ region ++ "-" ++ accountId
  let key := applicationName ++ "/" ++ versionLabel ++ extname packagePath
  let pre := if createBucketIfNotExists then createS3Bucket region bucket bucketExists else []
  (pre ++ [.putObject bucket key], bucket, key)

/-- An Elastic Beanstalk option setting as sent in `OptionSettings`
(all fields optional in the SDK type). -/
structure OptionSetting where
  «Namespace» : Option String
  OptionName : Option String
  Value : Option String
deriving DecidableEq, Repr

/-- The injected IAM instance profile setting of `createEnvironment`
(`src/aws-operations.ts` lines 400-405). -/
def iamInstanceProfileSetting (iamInstanceProfile : String) : OptionSetting :=
  { «Namespace» := some "aws:autoscaling:launchconfiguration"
    OptionName := some "IamInstanceProfile"
    Value := some iamInstanceProfile }

/-- The injected service role setting of `createEnvironment`
(`src/aws-operations.ts` lines 406-410). -/
def serviceRoleSetting (serviceRole : String) : OptionSetting :=
  { «Namespace» := some "aws:elasticbeanstalk:environment"
    OptionName := some "ServiceRole"
    Value := some serviceRole }

/-- The `OptionSettings` list `createEnvironment` sends
(`src/aws-operations.ts` lines 400-419): the two injected role settings,
then, when the caller-supplied `option-settings` input parsed to an array
(`customSettings = some cs`), every caller-supplied entry appended in
order; `none` covers an absent input or one that did not parse to an
array, where only the injected settings are sent. -/
def createEnvironmentOptionSettings (iamInstanceProfile serviceRole : String)
    (customSettings : Option (List OptionSetting)) : List OptionSetting :=
  let baseOptionSettings := [iamInstanceProfileSetting iamInstanceProfile,
    serviceRoleSetting serviceRole]
  match customSettings with
  | some cs => baseOptionSettings ++ cs
  | none => baseOptionSettings

/-! ## Theorems -/

/-- C7: `environmentExists` reports `exists = false` whenever the platform
returns an environment record whose status is "Terminated", while still
passing the record's status and health through, and any query failure also
yields `exists = false` instead of propagating an error. -/
theorem environmentExists_terminated_or_failure (health : Option String)
    (rest : List EnvRecord) :
    (environmentExists (some ({ status := some "Terminated", health := health } :: rest))).exists_
        = false ∧
    (environmentExists (some ({ status := some "Terminated", health := health } :: rest))).status
        = some "Terminated" ∧
    (environmentExists (some ({ status := some "Terminated", health := health } :: rest))).health
        = health ∧
    (environmentExists none).exists_ = false := by
  exact ⟨rfl, rfl, rfl, rfl⟩

/-- C9: the `OptionSettings` list sent on environment creation is exactly
the injected IAM-instance-profile setting, the injected service-role
setting, then every caller-supplied setting in order; nothing is
deduplicated (the length is always `2 + |custom|`, even when a custom
entry equals an injected one). -/
theorem createEnvironment_injected_settings_first (iamInstanceProfile serviceRole : String)
    (cs : List OptionSetting) :
    createEnvironmentOptionSettings iamInstanceProfile serviceRole (some cs) =
      iamInstanceProfileSetting iamInstanceProfile :: serviceRoleSetting serviceRole :: cs ∧
    (createEnvironmentOptionSettings iamInstanceProfile serviceRole (some cs)).take 2 =
      [iamInstanceProfileSetting iamInstanceProfile, serviceRoleSetting serviceRole] ∧
    (createEnvironmentOptionSettings iamInstanceProfile serviceRole (some cs)).drop 2 = cs ∧
    (createEnvironmentOptionSettings iamInstanceProfile serviceRole (some cs)).length =
      2 + cs.length := by
  refine ⟨rfl, rfl, rfl, ?_⟩
  simp [createEnvironmentOptionSettings]
  omega

/-- C10: calling `retryWithBackoff` with `maxRetries = 0` never invokes the
wrapped operation (zero calls) and always fails with the exhaustion error
reporting 0 attempts and the `undefined` last-error message; it can never
return successfully. -/
theorem retryWithBackoff_zero_never_invokes {α : Type} (fn : Nat → Except String α)
    (retryDelay : Nat) (operationName : String) :
    (retryWithBackoff fn 0 retryDelay operationName).calls = 0 ∧
    (retryWithBackoff fn 0 retryDelay operationName).result =
      .error (operationName ++ " failed after 0 attempts: undefined") := by
  have hmsg : (retryWithBackoff fn 0 retryDelay operationName).result =
      .error (operationName ++ " failed after 0 attempts: undefined") := by
    show Except.error (operationName ++ " failed after " ++ toString (0 : Nat) ++
        " attempts: " ++ jsShow none) = _
    rw [String.append_assoc, String.append_assoc, String.append_assoc]
    exact congrArg (fun s => Except.error (operationName ++ s)) (by decide)
  exact ⟨rfl, hmsg⟩

/-- C8 counterexample: with bucket creation disabled and a nonexistent
destination bucket, `uploadToS3` does not fail before uploading — it
performs no existence probe and no bucket-missing failure, and its request
trace is exactly the `PutObject` upload attempt. -/
theorem uploadToS3_counterexample_no_bucket_missing :
    (uploadToS3 "us-west-2" "123456789012" "my-app" "v1" "pkg.zip" false false).1 =
      [S3Action.putObject "elasticbeanstalk-us-west-2-123456789012" "my-app/v1.zip"] ∧
    (uploadToS3 "us-west-2" "123456789012" "my-app" "v1" "pkg.zip" false false).2 =
      ("elasticbeanstalk-us-west-2-123456789012", "my-app/v1.zip") := by
  exact ⟨rfl, rfl⟩

/-- C8 (amended): with bucket creation disabled, `uploadToS3` performs no
existence check and no bucket-missing failure — it proceeds directly to the
`PutObject` upload; with creation enabled, it first probes the bucket with
`HeadBucket` and, when the probe fails, creates the bucket passing a
`LocationConstraint` for every region other than `us-east-1` (omitted for
`us-east-1`); in both modes the package is uploaded under the key
`{applicationName}/{versionLabel}{extension}` into the bucket
`elasticbeanstalk-{region}-{accountId}`. -/
theorem uploadToS3_bucket_handling (region accountId applicationName versionLabel
    packagePath : String) (bucketExists : Bool) :
    (uploadToS3 region accountId applicationName versionLabel packagePath false bucketExists).1 =
      [S3Action.putObject ("elasticbeanstalk-" ++ region ++ "-" ++ accountId)
        (applicationName ++ "/" ++ versionLabel ++ extname packagePath)] ∧
    (uploadToS3 region accountId applicationName versionLabel packagePath true bucketExists).1 =
      S3Action.headBucket ("elasticbeanstalk-" ++ region ++ "-" ++ accountId) ::
        ((if bucketExists then []
          else [S3Action.createBucket ("elasticbeanstalk-" ++ region ++ "-" ++ accountId)
            (if region = "us-east-1" then none else some region)]) ++
          [S3Action.putObject ("elasticbeanstalk-" ++ region ++ "-" ++ accountId)
            (applicationName ++ "/" ++ versionLabel ++ extname packagePath)]) ∧
    (uploadToS3 region accountId applicationName versionLabel packagePath false bucketExists).2 =
      ("elasticbeanstalk-" ++ region ++ "-" ++ accountId,
        applicationName ++ "/" ++ versionLabel ++ extname packagePath) := by
  refine ⟨rfl, ?_, rfl⟩
  cases bucketExists <;> rfl

/-- Invariant of the retry loop when every attempt fails: the run exhausts
the remaining attempts, invoking the operation once per attempt, and
settles on the exhaustion error whose tail is the last attempt's error
message (or the incoming `lastError` when no attempt remains). -/
theorem retryLoop_all_fail {α : Type} (errs : Nat → String) (fn : Nat → Except String α)
    (opName : String) (m rd : Nat) (hf : ∀ k, fn k = .error (errs k)) (fuel : Nat) :
    ∀ a le, a + fuel = m + 1 →
      (retryLoop fn opName m rd fuel a le).result =
        .error (opName ++ " failed after " ++ toString m ++ " attempts: " ++
          (if a ≤ m then errs m else jsShow le)) ∧
      (retryLoop fn opName m rd fuel a le).calls = m + 1 - a := by
  induction fuel with
  | zero =>
    intro a le h1
    have ha : ¬ a ≤ m := by omega
    constructor
    · simp [retryLoop, ha]
    · simp [retryLoop]
      omega
  | succ fuel ih =>
    intro a le h1
    have ham : a ≤ m := by omega
    have h2 : (a + 1) + fuel = m + 1 := by omega
    obtain ⟨hr1, hr2⟩ := ih (a + 1) (some (errs a)) h2
    rw [if_pos ham]
    have htail : (if a + 1 ≤ m then errs m else jsShow (some (errs a))) = errs m := by
      by_cases h : a + 1 ≤ m
      · simp [h]
      · have haa : a = m := by omega
        simp [h, haa, jsShow]
    rw [htail] at hr1
    by_cases h : a < m
    · constructor
      · simpa [retryLoop, ham, hf a, h] using hr1
      · have : (retryLoop fn opName m rd (fuel + 1) a le).calls =
            (retryLoop fn opName m rd fuel (a + 1) (some (errs a))).calls + 1 := by
          simp [retryLoop, ham, hf a, h]
        rw [this, hr2]
        omega
    · constructor
      · simpa [retryLoop, ham, hf a, h] using hr1
      · have : (retryLoop fn opName m rd (fuel + 1) a le).calls =
            (retryLoop fn opName m rd fuel (a + 1) (some (errs a))).calls + 1 := by
          simp [retryLoop, ham, hf a, h]
        rw [this, hr2]
        omega

/-- C1: for every `maxAttempts ≥ 1`, an always-failing operation is invoked
exactly `maxAttempts` times by `retryWithBackoff`, which then fails with an
error whose message contains the attempt count and the last underlying
error's message. -/
theorem retryWithBackoff_exhausts_attempts {α : Type} (errs : Nat → String)
    (fn : Nat → Except String α) (opName : String) (m rd : Nat)
    (hm : 1 ≤ m) (hf : ∀ k, fn k = .error (errs k)) :
    (retryWithBackoff fn m rd opName).calls = m ∧
    (retryWithBackoff fn m rd opName).result =
      .error (opName ++ " failed after " ++ toString m ++ " attempts: " ++ errs m) ∧
    (∃ pre post, opName ++ " failed after " ++ toString m ++ " attempts: " ++ errs m =
      pre ++ toString m ++ post) ∧
    (∃ pre post, opName ++ " failed after " ++ toString m ++ " attempts: " ++ errs m =
      pre ++ errs m ++ post) := by
  obtain ⟨hr1, hr2⟩ := retryLoop_all_fail errs fn opName m rd hf m 1 none (by omega)
  rw [if_pos hm] at hr1
  refine ⟨by rw [retryWithBackoff, hr2]; omega, by rw [retryWithBackoff, hr1], ?_, ?_⟩
  · exact ⟨opName ++ " failed after ", " attempts: " ++ errs m, by
      rw [String.append_assoc (opName ++ " failed after " ++ toString m)]⟩
  · exact ⟨opName ++ " failed after " ++ toString m ++ " attempts: ", "", by
      rw [String.append_empty]⟩

/-- Witness for C1 at `maxAttempts = 2`: the always-failing operation is
called twice and the settled error embeds the count and the message. -/
theorem retryWithBackoff_exhausts_attempts_witness :
    (retryWithBackoff (fun _ => (Except.error "boom" : Except String Nat)) 2 5 "op").calls = 2 ∧
    (retryWithBackoff (fun _ => (Except.error "boom" : Except String Nat)) 2 5 "op").result =
      .error ("op" ++ " failed after " ++ toString 2 ++ " attempts: " ++ "boom") := by
  have h := retryWithBackoff_exhausts_attempts (fun _ => "boom")
    (fun _ => (Except.error "boom" : Except String Nat)) "op" 2 5 (by decide) (fun _ => rfl)
  exact ⟨h.1, h.2.1⟩

/-- Invariant of the retry loop when the first `m - 1` attempts fail and
attempt `m` succeeds: starting at attempt `a ≤ m` the run returns the
success value after `m + 1 - a` invocations, sleeping
`retryDelay * 2 ^ (k - 1)` seconds after each failed attempt `k`. -/
theorem retryLoop_eventual_success {α : Type} (errs : Nat → String) (v : α)
    (fn : Nat → Except String α) (opName : String) (m rd : Nat)
    (hf : ∀ k, k < m → fn k = .error (errs k)) (hs : fn m = .ok v) (fuel : Nat) :
    ∀ a le, a + fuel = m + 1 → 1 ≤ a → a ≤ m →
      retryLoop fn opName m rd fuel a le =
        { result := .ok v
          calls := m + 1 - a
          delays := (List.range (m - a)).map (fun j => rd * 2 ^ (a - 1 + j)) } := by
  induction fuel with
  | zero =>
    intro a le h1 h2 h3
    omega
  | succ fuel ih =>
    intro a le h1 h2 h3
    by_cases h : a < m
    · have hrest := ih (a + 1) (some (errs a)) (by omega) (by omega) (by omega)
      have hcalls : m + 1 - (a + 1) + 1 = m + 1 - a := by omega
      have hdelays : rd * 2 ^ (a - 1) ::
          (List.range (m - (a + 1))).map (fun j => rd * 2 ^ (a + 1 - 1 + j)) =
          (List.range (m - a)).map (fun j => rd * 2 ^ (a - 1 + j)) := by
        rw [show m - a = (m - (a + 1)) + 1 from by omega, List.range_succ_eq_map,
          List.map_cons, List.map_map]
        congr 1
        apply List.map_congr_left
        intro j hj
        show rd * 2 ^ (a + 1 - 1 + j) = rd * 2 ^ (a - 1 + (j + 1))
        have hjj : a + 1 - 1 + j = a - 1 + (j + 1) := by omega
        rw [hjj]
      simp only [retryLoop, if_pos h3, hf a h, if_pos h, hrest, hcalls, hdelays]
    · have ham : a = m := by omega
      subst ham
      simp [retryLoop, hs, Nat.sub_self]

/-- C2: for every `maxAttempts ≥ 1`, an operation failing on exactly the
first `maxAttempts - 1` invocations and succeeding on the next one makes
`retryWithBackoff` return that success after exactly `maxAttempts`
invocations, sleeping exactly `retryDelay * 2 ^ (k - 1)` seconds after the
k-th failed attempt (1-indexed, `k < maxAttempts`). -/
theorem retryWithBackoff_success_after_failures {α : Type} (errs : Nat → String) (v : α)
    (fn : Nat → Except String α) (opName : String) (m rd : Nat)
    (hm : 1 ≤ m) (hf : ∀ k, k < m → fn k = .error (errs k)) (hs : fn m = .ok v) :
    (retryWithBackoff fn m rd opName).result = .ok v ∧
    (retryWithBackoff fn m rd opName).calls = m ∧
    (retryWithBackoff fn m rd opName).delays =
      (List.range (m - 1)).map (fun k => rd * 2 ^ k) ∧
    ∀ k, 1 ≤ k → k < m →
      (retryWithBackoff fn m rd opName).delays[k - 1]? = some (rd * 2 ^ (k - 1)) := by
  have hrun := retryLoop_eventual_success errs v fn opName m rd hf hs m 1 none
    (by omega) (by omega) hm
  have hdel : (retryWithBackoff fn m rd opName).delays =
      (List.range (m - 1)).map (fun k => rd * 2 ^ k) := by
    rw [retryWithBackoff, hrun]
    exact List.map_congr_left fun j hj => by norm_num
  refine ⟨by rw [retryWithBackoff, hrun], by rw [retryWithBackoff, hrun]; show m + 1 - 1 = m; omega, hdel, ?_⟩
  intro k hk1 hk2
  rw [hdel]
  have hlt : k - 1 < m - 1 := by omega
  simp [List.getElem?_map, List.getElem?_range, hlt]

/-- Witness for C2 at `maxAttempts = 3`, `retryDelay = 5`: two failures then
a success yield the value after three calls with backoff sleeps 5 and 10. -/
theorem retryWithBackoff_success_after_failures_witness :
    (retryWithBackoff (fun k => if k < 3 then .error "boom" else (Except.ok 42 : Except String Nat))
        3 5 "op").result = .ok 42 ∧
    (retryWithBackoff (fun k => if k < 3 then .error "boom" else (Except.ok 42 : Except String Nat))
        3 5 "op").calls = 3 ∧
    (retryWithBackoff (fun k => if k < 3 then .error "boom" else (Except.ok 42 : Except String Nat))
        3 5 "op").delays = (List.range (3 - 1)).map (fun k => 5 * 2 ^ k) := by
  have h := retryWithBackoff_success_after_failures (fun _ => "boom") 42
    (fun k => if k < 3 then .error "boom" else (Except.ok 42 : Except String Nat)) "op" 3 5
    (by decide) (fun k hk => by simp [hk]) (by norm_num)
  exact ⟨h.1, h.2.1, h.2.2.1⟩

/-- Folding `max` over a list starting at `d` yields `d` or a list element. -/
theorem foldl_max_or_mem (ds : List Nat) : ∀ d : Nat,
    ds.foldl max d = d ∨ ds.foldl max d ∈ ds := by
  induction ds with
  | nil => intro d; exact Or.inl rfl
  | cons x xs ih =>
    intro d
    rcases ih (max d x) with h | h
    · rcases Nat.le_total d x with hx | hx
      · right
        rw [List.foldl_cons, h]
        simp [Nat.max_eq_right hx]
      · left
        rw [List.foldl_cons, h]
        exact Nat.max_eq_left hx
    · right
      rw [List.foldl_cons]
      exact List.mem_cons_of_mem x h

/-- Folding `max` over a list bounds the seed and every element. -/
theorem foldl_max_bounds (ds : List Nat) : ∀ d : Nat,
    d ≤ ds.foldl max d ∧ ∀ x ∈ ds, x ≤ ds.foldl max d := by
  induction ds with
  | nil => intro d; exact ⟨Nat.le_refl d, by simp⟩
  | cons y ys ih =>
    intro d
    obtain ⟨h1, h2⟩ := ih (max d y)
    refine ⟨Nat.le_trans (Nat.le_max_left d y) h1, ?_⟩
    intro x hx
    rcases List.mem_cons.mp hx with rfl | hx
    · exact Nat.le_trans (Nat.le_max_right d x) h1
    · exact h2 x hx

/-- The `mostRecentDate` fold seeded with a value computes the maximum of
the seed and the events' dates. -/
theorem foldl_mostRecentStep_some (l : List EBEvent) : ∀ a : Nat,
    l.foldl Part002.mostRecentStep (some a) =
      some ((l.filterMap EBEvent.eventDate).foldl max a) := by
  induction l with
  | nil => intro a; rfl
  | cons e l ih =>
    intro a
    rw [List.foldl_cons]
    cases hd : e.eventDate with
    | none => simp [Part002.mostRecentStep, hd, ih, List.filterMap_cons, hd]
    | some d =>
      have hstep : Part002.mostRecentStep (some a) e = some (max a d) := by
        simp only [Part002.mostRecentStep, hd]
        split <;> rename_i hcond <;> simp <;> omega
      rw [hstep, ih (max a d)]
      simp [List.filterMap_cons, hd]

/-- The `mostRecentDate` fold seeded with `undefined` yields `undefined`
when no event carries a date, and the maximum date otherwise. -/
theorem foldl_mostRecentStep_none (l : List EBEvent) :
    l.foldl Part002.mostRecentStep none =
      match l.filterMap EBEvent.eventDate with
      | [] => none
      | d :: ds => some (ds.foldl max d) := by
  induction l with
  | nil => rfl
  | cons e l ih =>
    rw [List.foldl_cons]
    cases hd : e.eventDate with
    | none =>
      have hstep : Part002.mostRecentStep none e = none := by
        simp [Part002.mostRecentStep, hd]
      rw [hstep, ih]
      simp [List.filterMap_cons, hd]
    | some d =>
      have hstep : Part002.mostRecentStep none e = some d := by
        simp [Part002.mostRecentStep, hd]
      rw [hstep, foldl_mostRecentStep_some]
      simp [List.filterMap_cons, hd]

/-- The events the mark-deduplicating tailer reports are exactly the new
events it selected. -/
theorem part002_reported_eq (evs : List EBEvent) (mark : Option Nat) :
    (Part002.describeRecentEvents (some evs) mark).reported =
      Part002.newEventsOf evs mark := by
  by_cases h : (Part002.newEventsOf evs mark).length > 0
  · simp only [Part002.describeRecentEvents, h, if_pos]
    cases hh : ((Part002.newEventsOf evs mark).filter isFatalOrError).head? <;> simp [hh]
  · have hnil : Part002.newEventsOf evs mark = [] := by
      cases hc : Part002.newEventsOf evs mark with
      | nil => rfl
      | cons x xs => rw [hc] at h; simp at h
    simp [Part002.describeRecentEvents, hnil]

/-- The returned `lastEventDate` is the `mostRecentDate` fold over the new
events when there are any, and the incoming mark otherwise. -/
theorem part002_lastEventDate_eq (evs : List EBEvent) (mark : Option Nat) :
    (Part002.describeRecentEvents (some evs) mark).lastEventDate =
      (if (Part002.newEventsOf evs mark).length > 0 then
        (Part002.newEventsOf evs mark).foldl Part002.mostRecentStep none
      else mark) := by
  by_cases h : (Part002.newEventsOf evs mark).length > 0
  · simp only [Part002.describeRecentEvents, h, if_pos]
    cases hh : ((Part002.newEventsOf evs mark).filter isFatalOrError).head? <;> simp [hh]
  · have hnil : Part002.newEventsOf evs mark = [] := by
      cases hc : Part002.newEventsOf evs mark with
      | nil => rfl
      | cons x xs => rw [hc] at h; simp at h
    simp [Part002.describeRecentEvents, hnil]

/-- Membership in the new-event selection against a present mark: exactly
the fetched events bearing a date strictly above the mark. -/
theorem mem_newEventsOf_some (evs : List EBEvent) (m : Nat) (e : EBEvent) :
    e ∈ Part002.newEventsOf evs (some m) ↔
      e ∈ evs ∧ ∃ d, e.eventDate = some d ∧ m < d := by
  simp only [Part002.newEventsOf, List.mem_filter]
  constructor
  · rintro ⟨h1, h2⟩
    refine ⟨h1, ?_⟩
    cases hd : e.eventDate with
    | none => rw [hd] at h2; simp at h2
    | some d => rw [hd] at h2; exact ⟨d, rfl, by simpa using h2⟩
  · rintro ⟨h1, d, hd, hm⟩
    exact ⟨h1, by simp [hd, hm]⟩

/-- C3: the mark-deduplicating event fetch reports exactly the events
strictly newer than the high-water mark (all fetched events when the mark
is absent); the returned mark is the maximum timestamp among the newly
considered events and the prior mark unchanged when there are none; in
particular, for events at timestamps 1 < 2 < 3 and mark 2, only the
timestamp-3 event is reported and the returned mark is 3. -/
theorem part002_describeRecentEvents_dedup (evs : List EBEvent) (mark : Option Nat) :
    (∀ e, e ∈ (Part002.describeRecentEvents (some evs) mark).reported ↔
      (e ∈ evs ∧ ∀ m, mark = some m → ∃ d, e.eventDate = some d ∧ m < d)) ∧
    (Part002.describeRecentEvents (some evs) mark).lastEventDate =
      specHighWater (Part002.describeRecentEvents (some evs) mark).reported mark ∧
    ((Part002.describeRecentEvents (some evs) mark).reported.filterMap EBEvent.eventDate = [] →
      (Part002.describeRecentEvents (some evs) mark).lastEventDate = mark) ∧
    (∀ M, (Part002.describeRecentEvents (some evs) mark).lastEventDate = some M →
      (Part002.describeRecentEvents (some evs) mark).reported.filterMap EBEvent.eventDate ≠ [] →
      M ∈ (Part002.describeRecentEvents (some evs) mark).reported.filterMap EBEvent.eventDate ∧
      ∀ d ∈ (Part002.describeRecentEvents (some evs) mark).reported.filterMap EBEvent.eventDate,
        d ≤ M) ∧
    ((Part002.describeRecentEvents
        (some [⟨some 3, none, none⟩, ⟨some 2, none, none⟩, ⟨some 1, none, none⟩])
        (some 2)).reported = [⟨some 3, none, none⟩] ∧
      (Part002.describeRecentEvents
        (some [⟨some 3, none, none⟩, ⟨some 2, none, none⟩, ⟨some 1, none, none⟩])
        (some 2)).lastEventDate = some 3) := by
  have hmem : ∀ e, e ∈ (Part002.describeRecentEvents (some evs) mark).reported ↔
      (e ∈ evs ∧ ∀ m, mark = some m → ∃ d, e.eventDate = some d ∧ m < d) := by
    intro e
    rw [part002_reported_eq]
    cases mark with
    | none => simp [Part002.newEventsOf]
    | some m =>
      rw [mem_newEventsOf_some]
      constructor
      · rintro ⟨h1, d, hd, hm⟩
        exact ⟨h1, fun m' hm' => by
          injection hm' with hmeq
          exact ⟨d, hd, hmeq ▸ hm⟩⟩
      · rintro ⟨h1, hall⟩
        exact ⟨h1, hall m rfl⟩
  have hspec : (Part002.describeRecentEvents (some evs) mark).lastEventDate =
      specHighWater (Part002.describeRecentEvents (some evs) mark).reported mark := by
    rw [part002_reported_eq, part002_lastEventDate_eq]
    by_cases h : (Part002.newEventsOf evs mark).length > 0
    · rw [if_pos h]
      cases mark with
      | none =>
        rw [foldl_mostRecentStep_none]
        cases hdl : (Part002.newEventsOf evs none).filterMap EBEvent.eventDate <;>
          simp [specHighWater, hdl]
      | some m =>
        obtain ⟨e, rest, hne⟩ : ∃ e rest, Part002.newEventsOf evs (some m) = e :: rest := by
          cases hc : Part002.newEventsOf evs (some m) with
          | nil => rw [hc] at h; simp at h
          | cons a b => exact ⟨a, b, rfl⟩
        obtain ⟨d, hd, _⟩ :=
          ((mem_newEventsOf_some evs m e).mp (hne ▸ List.mem_cons_self e rest)).2
        rw [foldl_mostRecentStep_none, hne]
        simp [specHighWater, List.filterMap_cons, hd]
    · have hnil : Part002.newEventsOf evs mark = [] := by
        cases hc : Part002.newEventsOf evs mark with
        | nil => rfl
        | cons x xs => rw [hc] at h; simp at h
      rw [if_neg h, hnil]
      simp [specHighWater]
  refine ⟨hmem, hspec, ?_, ?_, by decide⟩
  · intro hdl
    rw [hspec, specHighWater, hdl]
  · intro M hM hne
    rw [hspec, specHighWater] at hM
    obtain ⟨d0, ds0, hds⟩ : ∃ d0 ds0,
        (Part002.describeRecentEvents (some evs) mark).reported.filterMap EBEvent.eventDate =
          d0 :: ds0 := by
      cases hc : (Part002.describeRecentEvents (some evs) mark).reported.filterMap
          EBEvent.eventDate with
      | nil => exact absurd hc hne
      | cons a b => exact ⟨a, b, rfl⟩
    rw [hds] at hM ⊢
    simp only [Option.some.injEq] at hM
    constructor
    · rcases foldl_max_or_mem ds0 d0 with h | h
      · rw [← hM, h]
        exact List.mem_cons_self d0 ds0
      · rw [← hM]
        exact List.mem_cons_of_mem d0 h
    · intro d hd
      rcases List.mem_cons.mp hd with rfl | hd
      · exact hM ▸ (foldl_max_bounds ds0 d).1
      · exact hM ▸ (foldl_max_bounds ds0 d0).2 d hd

/-- Witness for C3: the timestamp-3 event is selected past a mark of 2, and
an empty fetch leaves a mark of 7 unchanged. -/
theorem part002_describeRecentEvents_dedup_witness :
    (⟨some 3, none, none⟩ : EBEvent) ∈ (Part002.describeRecentEvents
      (some [⟨some 3, none, none⟩, ⟨some 2, none, none⟩, ⟨some 1, none, none⟩])
      (some 2)).reported ∧
    (Part002.describeRecentEvents (some ([] : List EBEvent)) (some 7)).lastEventDate = some 7 := by
  constructor
  · exact ((part002_describeRecentEvents_dedup
      [⟨some 3, none, none⟩, ⟨some 2, none, none⟩, ⟨some 1, none, none⟩] (some 2)).1
      ⟨some 3, none, none⟩).mpr ⟨by decide, fun m hm => by
        injection hm with hmeq
        exact ⟨3, rfl, by omega⟩⟩
  · exact (part002_describeRecentEvents_dedup [] (some 7)).2.2.1 rfl

/-- Both configured poll intervals are positive. -/
theorem pollIntervalFor_pos (t : Option DeploymentActionType) : 1 ≤ pollIntervalFor t := by
  cases t with
  | none => exact Nat.le_of_lt (by norm_num [pollIntervalFor])
  | some a => cases a <;> norm_num [pollIntervalFor]

/-- A cycle that neither succeeds nor fails just advances the Deployment
Watcher loop to the next poll. -/
theorem deployLoop_skip (obs : Nat → DeployPoll) (pi mw : Nat) (i fuel : Nat)
    (hi : i * pi < mw) (hc : Monitoring.cycleContinues obs i) :
    Monitoring.deployLoop obs pi mw i (fuel + 1) =
      Monitoring.deployLoop obs pi mw (i + 1) fuel := by
  rcases hc with hnone | ⟨s, hs, hns, hne⟩
  · simp [Monitoring.deployLoop, hi, hnone]
  · simp [Monitoring.deployLoop, hi, hs, hns, hne]

/-- Running the Deployment Watcher loop from the start equals running it
from cycle `i` when every earlier cycle just continues. -/
theorem deployLoop_reach (obs : Nat → DeployPoll) (pi mw : Nat) (hpi : 1 ≤ pi) :
    ∀ i, (∀ j, j < i → Monitoring.cycleContinues obs j) → i * pi < mw →
      Monitoring.deployLoop obs pi mw 0 mw = Monitoring.deployLoop obs pi mw i (mw - i) := by
  intro i
  induction i with
  | zero => intro _ _; simp
  | succ i ih =>
    intro hpre hi
    have hstep : i * pi < mw := by
      have : i * pi ≤ (i + 1) * pi := Nat.mul_le_mul_right pi (by omega)
      omega
    have hilt : i + 1 ≤ mw := by
      have h1 : i + 1 ≤ (i + 1) * pi := Nat.le_mul_of_pos_right (i + 1) (by omega)
      omega
    rw [ih (fun j hj => hpre j (by omega)) hstep,
      show mw - i = (mw - (i + 1)) + 1 from by omega,
      deployLoop_skip obs pi mw i (mw - (i + 1)) hstep (hpre i (by omega))]

/-- When every in-time cycle continues, the Deployment Watcher loop times
out at an exit index that is past the deadline. -/
theorem deployLoop_timeout (obs : Nat → DeployPoll) (pi mw : Nat) (hpi : 1 ≤ pi)
    (hall : ∀ j, j * pi < mw → Monitoring.cycleContinues obs j) :
    ∀ fuel i, fuel + i = mw →
      ∃ N, mw ≤ N * pi ∧ Monitoring.deployLoop obs pi mw i fuel = .timedOut N := by
  intro fuel
  induction fuel with
  | zero =>
    intro i hfi
    refine ⟨i, ?_, rfl⟩
    have : i ≤ i * pi := Nat.le_mul_of_pos_right i (by omega)
    omega
  | succ fuel ih =>
    intro i hfi
    by_cases hcond : i * pi < mw
    · rw [deployLoop_skip obs pi mw i fuel hcond (hall i hcond)]
      exact ih (i + 1) (by omega)
    · refine ⟨i, by omega, ?_⟩
      simp [Monitoring.deployLoop, hcond]

/-- C5: in every reached polling cycle of the Deployment Watcher, a "Ready"
status succeeds immediately; otherwise the event fetch is consulted and a
reported fatal/error event fails the run in that same cycle with the
event's message; and only when every in-time cycle does neither does the
run perform one final event fetch and fail with the timeout error. -/
theorem waitForDeploymentCompletion_cycles (obs : Nat → DeployPoll) (timeout : Nat)
    (t : Option DeploymentActionType) (i : Nat)
    (hi : i * pollIntervalFor t < timeout * 1000)
    (hpre : ∀ j, j < i → Monitoring.cycleContinues obs j) :
    ((obs i).env = some (some "Ready") →
      Monitoring.waitForDeploymentCompletion obs timeout t = .completed) ∧
    (∀ s, (obs i).env = some s → s ≠ some "Ready" →
      (Monitoring.describeRecentEvents (obs i).events).hasError = true →
      Monitoring.waitForDeploymentCompletion obs timeout t =
        .failedEvent ("Environment deployment failed - fatal or error event detected: " ++
          jsShow (Monitoring.describeRecentEvents (obs i).events).errorMessage)) ∧
    ((∀ j, j * pollIntervalFor t < timeout * 1000 → Monitoring.cycleContinues obs j) →
      ∃ N, timeout * 1000 ≤ N * pollIntervalFor t ∧
        Monitoring.waitForDeploymentCompletion obs timeout t =
          .timedOut (Monitoring.describeRecentEvents (obs N).events)
            ("Deployment timed out after " ++ toString timeout ++ "s")) := by
  have hpi := pollIntervalFor_pos t
  have hfuel : timeout * 1000 - i = (timeout * 1000 - (i + 1)) + 1 := by
    have : i ≤ i * pollIntervalFor t := Nat.le_mul_of_pos_right i (by omega)
    omega
  have hreach := deployLoop_reach obs (pollIntervalFor t) (timeout * 1000) hpi i hpre hi
  refine ⟨?_, ?_, ?_⟩
  · intro hready
    unfold Monitoring.waitForDeploymentCompletion
    rw [hreach, hfuel]
    simp [Monitoring.deployLoop, hi, hready]
  · intro s hs hns herr
    unfold Monitoring.waitForDeploymentCompletion
    rw [hreach, hfuel]
    simp [Monitoring.deployLoop, hi, hs, hns, herr]
  · intro hall
    obtain ⟨N, hN, hloop⟩ := deployLoop_timeout obs (pollIntervalFor t) (timeout * 1000)
      hpi hall (timeout * 1000) 0 (by omega)
    refine ⟨N, hN, ?_⟩
    unfold Monitoring.waitForDeploymentCompletion
    rw [hloop]

/-- Witness for C5: status "Updating" with no events on poll 0, "Ready" on
poll 1 — the watcher completes. -/
theorem waitForDeploymentCompletion_cycles_witness :
    Monitoring.waitForDeploymentCompletion
      (fun j => if j = 0 then ⟨some (some "Updating"), some []⟩
        else ⟨some (some "Ready"), some []⟩) 11 (some .update) = .completed := by
  refine (waitForDeploymentCompletion_cycles
    (fun j => if j = 0 then ⟨some (some "Updating"), some []⟩
      else ⟨some (some "Ready"), some []⟩) 11 (some .update) 1 (by norm_num [pollIntervalFor])
    ?_).1 rfl
  intro j hj
  have hj0 : j = 0 := by omega
  subst hj0
  exact Or.inr ⟨some "Updating", rfl, by decide, rfl⟩

/-- A cycle that neither succeeds nor fails just advances the Health
Watcher loop to the next poll. -/
theorem healthLoop_skip (obs : Nat → HealthPoll) (mw i fuel : Nat)
    (hi : i * 15000 < mw) (hc : Monitoring.healthCycleContinues obs i) :
    Monitoring.healthLoop obs mw i (fuel + 1) = Monitoring.healthLoop obs mw (i + 1) fuel := by
  rcases hc with hnone | ⟨env, henv, hng, hngy, hnrr⟩
  · simp [Monitoring.healthLoop, hi, hnone]
  · simp [Monitoring.healthLoop, hi, henv, hng, hngy, hnrr]

/-- Running the Health Watcher loop from the start equals running it from
cycle `i` when every earlier cycle just continues. -/
theorem healthLoop_reach (obs : Nat → HealthPoll) (mw : Nat) :
    ∀ i, (∀ j, j < i → Monitoring.healthCycleContinues obs j) → i * 15000 < mw →
      Monitoring.healthLoop obs mw 0 mw = Monitoring.healthLoop obs mw i (mw - i) := by
  intro i
  induction i with
  | zero => intro _ _; simp
  | succ i ih =>
    intro hpre hi
    have hstep : i * 15000 < mw := by nlinarith
    have hilt : i + 1 ≤ mw := by nlinarith
    rw [ih (fun j hj => hpre j (by omega)) hstep,
      show mw - i = (mw - (i + 1)) + 1 from by omega,
      healthLoop_skip obs mw i (mw - (i + 1)) hstep (hpre i (by omega))]

/-- The Health Watcher loop exits with a Red failure only from a cycle that
observed Red health together with a "Ready" status, in time. -/
theorem healthLoop_redFailure_origin (obs : Nat → HealthPoll) (mw : Nat) :
    ∀ fuel i k, Monitoring.healthLoop obs mw i fuel = .redFailure k →
      ∃ env, (obs k).env = some env ∧ env.health = some "Red" ∧
        env.status = some "Ready" ∧ k * 15000 < mw := by
  intro fuel
  induction fuel with
  | zero =>
    intro i k h
    simp [Monitoring.healthLoop] at h
  | succ fuel ih =>
    intro i k h
    by_cases hcond : i * 15000 < mw
    · cases henv : (obs i).env with
      | none =>
        rw [show Monitoring.healthLoop obs mw i (fuel + 1) =
            Monitoring.healthLoop obs mw (i + 1) fuel from by
          simp [Monitoring.healthLoop, hcond, henv]] at h
        exact ih (i + 1) k h
      | some env =>
        by_cases h1 : (env.health = some "Grey" ∨ env.health = none) ∧
            (Monitoring.describeRecentEvents (obs i).events).hasError
        · simp [Monitoring.healthLoop, hcond, henv, h1] at h
        · by_cases h2 : env.health = some "Green" ∨ env.health = some "Yellow"
          · simp [Monitoring.healthLoop, hcond, henv, h1, h2] at h
          · by_cases h3 : env.health = some "Red" ∧ env.status = some "Ready"
            · have hik : i = k := by
                simp [Monitoring.healthLoop, hcond, henv, h1, h2, h3] at h
                exact h
              subst hik
              exact ⟨env, henv, h3.1, h3.2, hcond⟩
            · rw [show Monitoring.healthLoop obs mw i (fuel + 1) =
                  Monitoring.healthLoop obs mw (i + 1) fuel from by
                simp [Monitoring.healthLoop, hcond, henv, h1, h2, h3]] at h
              exact ih (i + 1) k h
    · simp [Monitoring.healthLoop, hcond] at h

/-- C6: in every reached polling cycle of the Health Watcher, Green or
Yellow health returns success immediately; the health-is-Red failure (with
its diagnostic event fetch) happens exactly when health is Red while the
status is "Ready"; Red health with a non-Ready status causes no failure —
the loop simply advances to the next poll; and any Red failure of a run
originates from some in-time cycle that observed Red health with a
"Ready" status. -/
theorem waitForHealthRecovery_cycles (obs : Nat → HealthPoll) (timeout i : Nat)
    (hi : i * 15000 < timeout * 1000)
    (hpre : ∀ j, j < i → Monitoring.healthCycleContinues obs j) :
    (∀ env, (obs i).env = some env →
      (env.health = some "Green" ∨ env.health = some "Yellow") →
      Monitoring.waitForHealthRecovery obs timeout = .healthy) ∧
    (∀ env, (obs i).env = some env → env.health = some "Red" → env.status = some "Ready" →
      Monitoring.waitForHealthRecovery obs timeout =
        .redFailure (Monitoring.describeRecentEvents (obs i).events)
          "Environment deployment failed - health is Red") ∧
    (∀ env, (obs i).env = some env → env.health = some "Red" → env.status ≠ some "Ready" →
      ∀ fuel, Monitoring.healthLoop obs (timeout * 1000) i (fuel + 1) =
        Monitoring.healthLoop obs (timeout * 1000) (i + 1) fuel) ∧
    (∀ diag msg, Monitoring.waitForHealthRecovery obs timeout = .redFailure diag msg →
      ∃ j env, (obs j).env = some env ∧ env.health = some "Red" ∧
        env.status = some "Ready" ∧ j * 15000 < timeout * 1000) := by
  have hfuel : timeout * 1000 - i = (timeout * 1000 - (i + 1)) + 1 := by
    have : i + 1 ≤ (i + 1) * 15000 := by omega
    have h2 : i * 15000 + 15000 = (i + 1) * 15000 := by ring
    omega
  have hreach := healthLoop_reach obs (timeout * 1000) i hpre hi
  refine ⟨?_, ?_, ?_, ?_⟩
  · intro env henv hgy
    have hng : ¬((env.health = some "Grey" ∨ env.health = none) ∧
        (Monitoring.describeRecentEvents (obs i).events).hasError) := by
      rintro ⟨hor | hor, _⟩ <;> rcases hgy with hg | hg <;> rw [hg] at hor <;>
        exact absurd hor (by decide)
    unfold Monitoring.waitForHealthRecovery
    rw [hreach, hfuel]
    simp [Monitoring.healthLoop, hi, henv, hng, hgy]
  · intro env henv hred hready
    have hng : ¬((env.health = some "Grey" ∨ env.health = none) ∧
        (Monitoring.describeRecentEvents (obs i).events).hasError) := by
      rintro ⟨hor | hor, _⟩ <;> rw [hred] at hor <;> exact absurd hor (by decide)
    have hngy : ¬(env.health = some "Green" ∨ env.health = some "Yellow") := by
      rintro (hor | hor) <;> rw [hred] at hor <;> exact absurd hor (by decide)
    unfold Monitoring.waitForHealthRecovery
    rw [hreach, hfuel]
    simp [Monitoring.healthLoop, hi, henv, hng, hngy, hred, hready]
  · intro env henv hred hnready fuel
    have hng : ¬((env.health = some "Grey" ∨ env.health = none) ∧
        (Monitoring.describeRecentEvents (obs i).events).hasError) := by
      rintro ⟨hor | hor, _⟩ <;> rw [hred] at hor <;> exact absurd hor (by decide)
    have hngy : ¬(env.health = some "Green" ∨ env.health = some "Yellow") := by
      rintro (hor | hor) <;> rw [hred] at hor <;> exact absurd hor (by decide)
    have hnrr : ¬(env.health = some "Red" ∧ env.status = some "Ready") := by
      rintro ⟨_, hst⟩
      exact hnready hst
    exact healthLoop_skip obs (timeout * 1000) i fuel hi (Or.inr ⟨env, henv, hng, hngy, hnrr⟩)
  · intro diag msg hrun
    unfold Monitoring.waitForHealthRecovery at hrun
    rcases hloop : Monitoring.healthLoop obs (timeout * 1000) 0 (timeout * 1000) with
      _ | m | k | k
    · rw [hloop] at hrun
      simp at hrun
    · rw [hloop] at hrun
      simp at hrun
    · obtain ⟨env, henv, h1, h2, h3⟩ := healthLoop_redFailure_origin obs (timeout * 1000)
        (timeout * 1000) 0 k hloop
      exact ⟨k, env, henv, h1, h2, h3⟩
    · rw [hloop] at hrun
      simp at hrun

/-- Witness for C6: Grey health with no events on poll 0, Green on poll 1 —
the watcher reports a healthy environment. -/
theorem waitForHealthRecovery_cycles_witness :
    Monitoring.waitForHealthRecovery
      (fun j => if j = 0 then ⟨some ⟨some "Grey", some "Updating"⟩, some []⟩
        else ⟨some ⟨some "Green", some "Ready"⟩, some []⟩) 16 = .healthy := by
  refine ((waitForHealthRecovery_cycles
    (fun j => if j = 0 then ⟨some ⟨some "Grey", some "Updating"⟩, some []⟩
      else ⟨some ⟨some "Green", some "Ready"⟩, some []⟩) 16 1 (by norm_num)
    ?_).1 ⟨some "Green", some "Ready"⟩ rfl (Or.inl rfl))
  intro j hj
  have hj0 : j = 0 := by omega
  subst hj0
  refine Or.inr ⟨⟨some "Grey", some "Updating"⟩, rfl, ?_, by decide, by decide⟩
  rintro ⟨_, herr⟩
  exact absurd herr (by decide)

/-- Any dated event the mark-deduplicating tailer reports is bounded by the
mark it returns. -/
theorem part002_reported_date_le (fetch : Option (List EBEvent)) (mark : Option Nat)
    (e : EBEvent) (d : Nat) (he : e ∈ (Part002.describeRecentEvents fetch mark).reported)
    (hd : e.eventDate = some d) :
    ∃ M, (Part002.describeRecentEvents fetch mark).lastEventDate = some M ∧ d ≤ M := by
  cases fetch with
  | none => simp [Part002.describeRecentEvents] at he
  | some evs =>
    rw [part002_reported_eq] at he
    have hlen : (Part002.newEventsOf evs mark).length > 0 :=
      List.length_pos.mpr (List.ne_nil_of_mem he)
    rw [part002_lastEventDate_eq, if_pos hlen, foldl_mostRecentStep_none]
    have hdm : d ∈ (Part002.newEventsOf evs mark).filterMap EBEvent.eventDate :=
      List.mem_filterMap.mpr ⟨e, he, hd⟩
    cases hds : (Part002.newEventsOf evs mark).filterMap EBEvent.eventDate with
    | nil => rw [hds] at hdm; simp at hdm
    | cons d0 ds0 =>
      rw [hds] at hdm
      refine ⟨ds0.foldl max d0, rfl, ?_⟩
      rcases List.mem_cons.mp hdm with rfl | hmem
      · exact (foldl_max_bounds ds0 d).1
      · exact (foldl_max_bounds ds0 d0).2 d hmem

/-- The returned mark of the mark-deduplicating tailer never falls below a
present incoming mark. -/
theorem part002_mark_monotone (fetch : Option (List EBEvent)) (m : Nat) :
    ∃ M, (Part002.describeRecentEvents fetch (some m)).lastEventDate = some M ∧ m ≤ M := by
  cases fetch with
  | none => exact ⟨m, rfl, Nat.le_refl m⟩
  | some evs =>
    rw [part002_lastEventDate_eq]
    by_cases hlen : (Part002.newEventsOf evs (some m)).length > 0
    · rw [if_pos hlen, foldl_mostRecentStep_none]
      obtain ⟨e, he, hrest⟩ : ∃ e rest, Part002.newEventsOf evs (some m) = e :: rest := by
        cases hc : Part002.newEventsOf evs (some m) with
        | nil => rw [hc] at hlen; simp at hlen
        | cons a b => exact ⟨a, b, rfl⟩
      obtain ⟨d, hd, hmd⟩ :=
        ((mem_newEventsOf_some evs m e).mp (hrest ▸ List.mem_cons_self e _)).2
      have hdm : d ∈ (Part002.newEventsOf evs (some m)).filterMap EBEvent.eventDate :=
        List.mem_filterMap.mpr ⟨e, hrest ▸ List.mem_cons_self e _, hd⟩
      cases hds : (Part002.newEventsOf evs (some m)).filterMap EBEvent.eventDate with
      | nil => rw [hds] at hdm; simp at hdm
      | cons d0 ds0 =>
        rw [hds] at hdm
        refine ⟨ds0.foldl max d0, rfl, ?_⟩
        rcases List.mem_cons.mp hdm with rfl | hmem
        · exact Nat.le_trans (Nat.le_of_lt hmd) (foldl_max_bounds ds0 d).1
        · exact Nat.le_trans (Nat.le_of_lt hmd) ((foldl_max_bounds ds0 d0).2 d hmem)
    · exact ⟨m, by rw [if_neg hlen], Nat.le_refl m⟩

/-- Against a present mark, every reported event bears a date strictly
above the mark. -/
theorem part002_reported_gt_mark (fetch : Option (List EBEvent)) (m : Nat) (e : EBEvent)
    (he : e ∈ (Part002.describeRecentEvents fetch (some m)).reported) :
    ∃ d, e.eventDate = some d ∧ m < d := by
  cases fetch with
  | none => simp [Part002.describeRecentEvents] at he
  | some evs =>
    rw [part002_reported_eq] at he
    exact ((mem_newEventsOf_some evs m e).mp he).2

/-- The mark carried by the chained Deployment Watcher loop never
decreases: a run entered with a present mark ends with one at least as
large. -/
theorem chained_deployLoop_mark_monotone (obs : Nat → DeployPoll) (pi mw : Nat) :
    ∀ fuel i mark acc m0, mark = some m0 →
      ∃ M, (Chained.deployLoop obs pi mw i fuel mark acc).finalMark = some M ∧ m0 ≤ M := by
  intro fuel
  induction fuel with
  | zero =>
    intro i mark acc m0 hm
    exact ⟨m0, by simp [Chained.deployLoop, hm], Nat.le_refl m0⟩
  | succ fuel ih =>
    intro i mark acc m0 hm
    by_cases hcond : i * pi < mw
    · cases henv : (obs i).env with
      | none =>
        rw [show Chained.deployLoop obs pi mw i (fuel + 1) mark acc =
            Chained.deployLoop obs pi mw (i + 1) fuel mark acc from by
          simp [Chained.deployLoop, hcond, henv]]
        exact ih (i + 1) mark acc m0 hm
      | some status =>
        by_cases hready : status = some "Ready"
        · exact ⟨m0, by simp [Chained.deployLoop, hcond, henv, hready, hm], Nat.le_refl m0⟩
        · subst hm
          obtain ⟨M1, hM1, hmM1⟩ := part002_mark_monotone (obs i).events m0
          by_cases herr : (Part002.describeRecentEvents (obs i).events (some m0)).hasError
          · refine ⟨M1, ?_, hmM1⟩
            simp [Chained.deployLoop, hcond, henv, hready, herr, hM1]
          · rw [show Chained.deployLoop obs pi mw i (fuel + 1) (some m0) acc =
                Chained.deployLoop obs pi mw (i + 1) fuel (some M1)
                  (acc ++ (Part002.describeRecentEvents (obs i).events (some m0)).reported)
                from by simp [Chained.deployLoop, hcond, henv, hready, herr, hM1]]
            obtain ⟨M, hM, hM1M⟩ := ih (i + 1) (some M1) _ M1 rfl
            exact ⟨M, hM, Nat.le_trans hmM1 hM1M⟩
    · exact ⟨m0, by simp [Chained.deployLoop, hcond, hm], Nat.le_refl m0⟩

/-- In a chained Deployment Watcher run that completes, every dated event
reported beyond the incoming accumulator is bounded by the returned
high-water mark. -/
theorem chained_deployLoop_completed_reported (obs : Nat → DeployPoll) (pi mw : Nat) :
    ∀ fuel i mark acc,
      (Chained.deployLoop obs pi mw i fuel mark acc).outcome = .completed →
      ∀ e d, e ∈ (Chained.deployLoop obs pi mw i fuel mark acc).reported →
        e.eventDate = some d → e ∈ acc ∨
        ∃ M, (Chained.deployLoop obs pi mw i fuel mark acc).finalMark = some M ∧ d ≤ M := by
  intro fuel
  induction fuel with
  | zero =>
    intro i mark acc hout
    simp [Chained.deployLoop] at hout
  | succ fuel ih =>
    intro i mark acc hout e d he hd
    by_cases hcond : i * pi < mw
    · cases henv : (obs i).env with
      | none =>
        rw [show Chained.deployLoop obs pi mw i (fuel + 1) mark acc =
            Chained.deployLoop obs pi mw (i + 1) fuel mark acc from by
          simp [Chained.deployLoop, hcond, henv]] at hout he ⊢
        exact ih (i + 1) mark acc hout e d he hd
      | some status =>
        by_cases hready : status = some "Ready"
        · left
          rw [show (Chained.deployLoop obs pi mw i (fuel + 1) mark acc).reported = acc from by
            simp [Chained.deployLoop, hcond, henv, hready]] at he
          exact he
        · by_cases herr : (Part002.describeRecentEvents (obs i).events mark).hasError
          · rw [show (Chained.deployLoop obs pi mw i (fuel + 1) mark acc).outcome =
                .failedEvent ("Environment deployment failed - fatal or error event detected: " ++
                  jsShow (Part002.describeRecentEvents (obs i).events mark).errorMessage)
                from by simp [Chained.deployLoop, hcond, henv, hready, herr]] at hout
            exact absurd hout (by simp)
          · have hstep : Chained.deployLoop obs pi mw i (fuel + 1) mark acc =
                Chained.deployLoop obs pi mw (i + 1) fuel
                  (if (Part002.describeRecentEvents (obs i).events mark).lastEventDate.isSome
                    then (Part002.describeRecentEvents (obs i).events mark).lastEventDate
                    else mark)
                  (acc ++ (Part002.describeRecentEvents (obs i).events mark).reported) := by
              simp [Chained.deployLoop, hcond, henv, hready, herr]
            rw [hstep] at hout he ⊢
            rcases ih (i + 1) _ _ hout e d he hd with hacc | hM
            · rcases List.mem_append.mp hacc with h | h
              · exact Or.inl h
              · right
                obtain ⟨M1, hM1, hdM1⟩ :=
                  part002_reported_date_le (obs i).events mark e d h hd
                have hmark2 : (if (Part002.describeRecentEvents (obs i).events
                    mark).lastEventDate.isSome
                    then (Part002.describeRecentEvents (obs i).events mark).lastEventDate
                    else mark) = some M1 := by
                  rw [hM1]
                  simp
                rw [hmark2] at hout ⊢
                obtain ⟨M, hM, hM1M⟩ :=
                  chained_deployLoop_mark_monotone obs pi mw fuel (i + 1) (some M1) _ M1 rfl
                exact ⟨M, hM, Nat.le_trans hdM1 hM1M⟩
            · exact Or.inr hM
    · rw [show (Chained.deployLoop obs pi mw i (fuel + 1) mark acc).outcome =
          .timedOut i from by simp [Chained.deployLoop, hcond]] at hout
      exact absurd hout (by simp)

/-- Seeded with a present mark, the chained Health Watcher loop only ever
reports events dated strictly above any lower bound of that seed. -/
theorem chained_healthLoop_reported_gt (obs : Nat → HealthPoll) (mw m0 : Nat) :
    ∀ fuel i mark acc m, mark = some m → m0 ≤ m →
      ∀ e, e ∈ (Chained.healthLoop obs mw i fuel mark acc).reported →
        e ∈ acc ∨ ∃ d, e.eventDate = some d ∧ m0 < d := by
  intro fuel
  induction fuel with
  | zero =>
    intro i mark acc m hm hm0 e he
    subst hm
    rw [show (Chained.healthLoop obs mw i 0 (some m) acc).reported =
        acc ++ (Part002.describeRecentEvents (obs i).events (some m)).reported from by
      simp [Chained.healthLoop]] at he
    rcases List.mem_append.mp he with h | h
    · exact Or.inl h
    · obtain ⟨d, hd, hmd⟩ := part002_reported_gt_mark (obs i).events m e h
      exact Or.inr ⟨d, hd, by omega⟩
  | succ fuel ih =>
    intro i mark acc m hm hm0 e he
    subst hm
    by_cases hcond : i * 15000 < mw
    · cases henv : (obs i).env with
      | none =>
        rw [show Chained.healthLoop obs mw i (fuel + 1) (some m) acc =
            Chained.healthLoop obs mw (i + 1) fuel (some m) acc from by
          simp [Chained.healthLoop, hcond, henv]] at he
        exact ih (i + 1) (some m) acc m rfl hm0 e he
      | some env =>
        by_cases hgrey : env.health = some "Grey" ∨ env.health = none
        · by_cases herr : (Part002.describeRecentEvents (obs i).events (some m)).hasError
          · rw [show (Chained.healthLoop obs mw i (fuel + 1) (some m) acc).reported =
                acc ++ (Part002.describeRecentEvents (obs i).events (some m)).reported from by
              simp [Chained.healthLoop, hcond, henv, hgrey, herr]] at he
            rcases List.mem_append.mp he with h | h
            · exact Or.inl h
            · obtain ⟨d, hd, hmd⟩ := part002_reported_gt_mark (obs i).events m e h
              exact Or.inr ⟨d, hd, by omega⟩
          · obtain ⟨M1, hM1, hmM1⟩ := part002_mark_monotone (obs i).events m
            rw [show Chained.healthLoop obs mw i (fuel + 1) (some m) acc =
                Chained.healthLoop obs mw (i + 1) fuel (some M1)
                  (acc ++ (Part002.describeRecentEvents (obs i).events (some m)).reported)
                from by simp [Chained.healthLoop, hcond, henv, hgrey, herr, hM1]] at he
            rcases ih (i + 1) (some M1) _ M1 rfl (by omega) e he with hacc | hgt
            · rcases List.mem_append.mp hacc with h | h
              · exact Or.inl h
              · obtain ⟨d, hd, hmd⟩ := part002_reported_gt_mark (obs i).events m e h
                exact Or.inr ⟨d, hd, by omega⟩
            · obtain ⟨d, hd, hmd⟩ := hgt
              exact Or.inr ⟨d, hd, by omega⟩
        · by_cases hgy : env.health = some "Green" ∨ env.health = some "Yellow"
          · left
            rw [show (Chained.healthLoop obs mw i (fuel + 1) (some m) acc).reported = acc
                from by simp [Chained.healthLoop, hcond, henv, hgrey, hgy]] at he
            exact he
          · by_cases hrr : env.health = some "Red" ∧ env.status = some "Ready"
            · rw [show (Chained.healthLoop obs mw i (fuel + 1) (some m) acc).reported =
                  acc ++ (Part002.describeRecentEvents (obs i).events (some m)).reported from by
                simp [Chained.healthLoop, hcond, henv, hgrey, hgy, hrr]] at he
              rcases List.mem_append.mp he with h | h
              · exact Or.inl h
              · obtain ⟨d, hd, hmd⟩ := part002_reported_gt_mark (obs i).events m e h
                exact Or.inr ⟨d, hd, by omega⟩
            · rw [show Chained.healthLoop obs mw i (fuel + 1) (some m) acc =
                  Chained.healthLoop obs mw (i + 1) fuel (some m) acc from by
                simp [Chained.healthLoop, hcond, henv, hgrey, hgy, hrr]] at he
              exact ih (i + 1) (some m) acc m rfl hm0 e he
    · rw [show (Chained.healthLoop obs mw i (fuel + 1) (some m) acc).reported =
          acc ++ (Part002.describeRecentEvents (obs i).events (some m)).reported from by
        simp [Chained.healthLoop, hcond]] at he
      rcases List.mem_append.mp he with h | h
      · exact Or.inl h
      · obtain ⟨d, hd, hmd⟩ := part002_reported_gt_mark (obs i).events m e h
        exact Or.inr ⟨d, hd, by omega⟩

/-- C4: a completed run of the mark-returning Deployment Watcher hands its
final event high-water mark to the caller, every dated event it reported is
bounded by that mark, and the Health Watcher seeded with that mark never
reports such an event again. -/
theorem chained_watchers_no_reprocessing (dObs : Nat → DeployPoll) (hObs : Nat → HealthPoll)
    (t1 t2 : Nat) (ty : Option DeploymentActionType) (e : EBEvent) (d : Nat)
    (hout : (Chained.waitForDeploymentCompletion dObs t1 ty).outcome = .completed)
    (he : e ∈ (Chained.waitForDeploymentCompletion dObs t1 ty).reported)
    (hd : e.eventDate = some d) :
    ∃ m, (Chained.waitForDeploymentCompletion dObs t1 ty).finalMark = some m ∧ d ≤ m ∧
      e ∉ (Chained.waitForHealthRecovery hObs t2
        ((Chained.waitForDeploymentCompletion dObs t1 ty).finalMark)).reported := by
  rcases chained_deployLoop_completed_reported dObs (pollIntervalFor ty) (t1 * 1000)
      (t1 * 1000) 0 none [] hout e d he hd with hacc | ⟨M, hM, hdM⟩
  · exact absurd hacc (List.not_mem_nil e)
  · refine ⟨M, hM, hdM, ?_⟩
    intro hmem
    unfold Chained.waitForHealthRecovery Chained.waitForDeploymentCompletion at hmem
    rw [hM] at hmem
    rcases chained_healthLoop_reported_gt hObs (t2 * 1000) M (t2 * 1000) 0 (some M) [] M rfl
        (Nat.le_refl M) e hmem with h | ⟨d', hd', hgt⟩
    · exact List.not_mem_nil e h
    · rw [hd] at hd'
      injection hd' with hdd
      omega

/-- Witness for C4: the deploy trace reports an INFO event at timestamp 5
on poll 0 and completes on poll 1 with mark 5; the health watcher seeded
with that mark does not re-report the event. -/
theorem chained_watchers_no_reprocessing_witness :
    ∃ m, (Chained.waitForDeploymentCompletion
        (fun j => if j = 0
          then ⟨some (some "Updating"), some [⟨some 5, some "INFO", some "a"⟩]⟩
          else ⟨some (some "Ready"), some []⟩) 11 (some .update)).finalMark = some m ∧
      5 ≤ m ∧
      (⟨some 5, some "INFO", some "a"⟩ : EBEvent) ∉ (Chained.waitForHealthRecovery
        (fun _ => ⟨some ⟨some "Green", some "Ready"⟩, some []⟩) 1
        ((Chained.waitForDeploymentCompletion
          (fun j => if j = 0
            then ⟨some (some "Updating"), some [⟨some 5, some "INFO", some "a"⟩]⟩
            else ⟨some (some "Ready"), some []⟩) 11 (some .update)).finalMark)).reported :=
  chained_watchers_no_reprocessing
    (fun j => if j = 0
      then ⟨some (some "Updating"), some [⟨some 5, some "INFO", some "a"⟩]⟩
      else ⟨some (some "Ready"), some []⟩)
    (fun _ => ⟨some ⟨some "Green", some "Ready"⟩, some []⟩)
    11 1 (some .update) ⟨some 5, some "INFO", some "a"⟩ 5
    (by decide) (by decide) rfl
